import Mathlib

/-!
Verification of the geniust lyrics-formatting core.

This file gives a shallow embedding of the text-processing functions of
`geniust/utils.py` and `geniust/zip_album.py` (tag filtering, language
splitting, layout normalization, annotation inlining, snippet matching,
metadata normalization, archive naming) and proves or refutes the stated
properties of the specification against them.

Python strings are modelled as Lean `String` / `List Char`; Python `dict`
song data as structures; exceptions (`TypeError`, `ValueError`, `KeyError`)
as `Option`/`none` results.  Regular-expression substitutions are modelled
by explicit left-to-right scanners that realize the concrete patterns of
the source (documented at each definition).  Scanners that consume a
data-dependent number of characters take a fuel argument; the public
wrappers pass the input length, which every theorem shows is sufficient.
-/

/-- Whitespace test of Python `str.strip` (characters for which Python's
`str.isspace` holds: ASCII whitespace, the information separators, and the
Unicode space characters). -/
def pyIsSpace (c : Char) : Bool :=
  let n := c.toNat
  (0x09 ≤ n && n ≤ 0x0D) || n == 0x20 || (0x1C ≤ n && n ≤ 0x1F) || n == 0x85 ||
    n == 0xA0 || n == 0x1680 || (0x2000 ≤ n && n ≤ 0x200A) || n == 0x2028 ||
    n == 0x2029 || n == 0x202F || n == 0x205F || n == 0x3000

/-- Python `str.strip()` on a character list: drop leading and trailing
whitespace. -/
def pyStripList (l : List Char) : List Char :=
  ((l.dropWhile pyIsSpace).reverse.dropWhile pyIsSpace).reverse

/-- Python `str.strip()` on strings. -/
def pyStrip (s : String) : String :=
  (pyStripList s.toList).asString

/-- Python `str.startswith`. -/
def pyStartswith (pre s : String) : Bool :=
  pre.toList.isPrefixOf s.toList

/-- Python `str.split(sep)` for a one-character separator, on character
lists.  `"a-b".split("-") = ["a","b"]`, `"".split("-") = [""]`. -/
def splitCharList (c : Char) : List Char → List (List Char)
  | [] => [[]]
  | x :: xs =>
    match splitCharList c xs with
    | [] => [[]]
    | h :: t => if x = c then [] :: h :: t else (x :: h) :: t

/-- Python `str.split(sep)` for a one-character separator, on strings. -/
def pySplitChar (c : Char) (s : String) : List String :=
  (splitCharList c s.toList).map List.asString

/-- Python `str.split(sep)` for an arbitrary non-empty separator, with fuel
(the wrapper passes the input length, sufficient because every separator
occurrence consumes at least one character). -/
def splitSepF (sep : List Char) : Nat → List Char → List (List Char)
  | _, [] => [[]]
  | 0, l => [l]
  | f + 1, x :: xs =>
    if sep.isPrefixOf (x :: xs) then
      [] :: splitSepF sep f ((x :: xs).drop sep.length)
    else
      match splitSepF sep f xs with
      | [] => [[x]]
      | h :: t => (x :: h) :: t

/-- Python `str.split(sep)` on strings. -/
def pySplit (sep s : String) : List String :=
  (splitSepF sep.toList s.toList.length s.toList).map List.asString

/-- Number of occurrences of a character in a list. -/
def countChar (c : Char) : List Char → Nat
  | [] => 0
  | x :: xs => (if x = c then 1 else 0) + countChar c xs

theorem splitCharList_length (c : Char) (l : List Char) :
    (splitCharList c l).length = countChar c l + 1 := by
  induction l with
  | nil => rfl
  | cons x xs ih =>
    cases h : splitCharList c xs with
    | nil => rw [h] at ih; simp at ih
    | cons hd tl =>
      rw [h] at ih
      by_cases hx : x = c <;>
        simp only [splitCharList, h, countChar, hx, if_true, if_false,
          List.length_cons] at ih ⊢ <;> omega

/-! ## Metadata normalizer (`get_song_metadata`, utils.py lines 392-421) -/

/-- Membership in the Arabic/Persian Unicode block `[؀-ۿ]`. -/
def isPersianChar (c : Char) : Bool :=
  0x0600 ≤ c.toNat && c.toNat ≤ 0x06FF

/-- Scanner of the compiled pattern `TRANSLATION_PARENTHESES =
re.compile(r"\([؀-ۿ]\)")` substituted by the empty string: the
pattern matches an opening parenthesis, exactly ONE character of the
Arabic/Persian block, and a closing parenthesis; `sub` removes every
non-overlapping occurrence scanning left to right.  Fuel: every step
consumes at least one character, so the input length suffices. -/
def transParenSubF : Nat → List Char → List Char
  | _, [] => []
  | 0, l => l
  | f + 1, '(' :: c :: ')' :: rest2 =>
    if isPersianChar c then transParenSubF f rest2
    else '(' :: transParenSubF f (c :: ')' :: rest2)
  | f + 1, c :: rest => c :: transParenSubF f rest

/-- Substitution of `TRANSLATION_PARENTHESES` by the empty string. -/
def transParenSub (l : List Char) : List Char :=
  transParenSubF l.length l

/-- The two-element unpacking `artists, title = [...]` of Python: succeeds
exactly on two-element lists, otherwise raises `ValueError` (modelled as
`none`). -/
def unpack2 {α : Type} : List α → Option (α × α)
  | [a, t] => some (a, t)
  | _ => none

theorem unpack2_eq_none_iff {α : Type} (l : List α) :
    unpack2 l = none ↔ l.length ≠ 2 := by
  match l with
  | [] => simp [unpack2]
  | [a] => simp [unpack2]
  | [a, b] => simp [unpack2]
  | a :: b :: d :: t => simp [unpack2]

/-- Song data consumed by `get_song_metadata`: the fields `title`,
`primary_artist.name` and the names of `featured_artists`. -/
structure Song where
  title : String
  primary_artist_name : String
  featured_artists : List String

/-- Embedding of `get_song_metadata(song)` (utils.py 392-421).  The Python
`artists, title = [x.strip() for x in title.split("-")]` unpacking raises
`ValueError` unless the split has exactly two elements; this is modelled by
returning `none`. -/
def get_song_metadata (song : Song) : Option (String × List String × List String) :=
  let primary_artists := pySplit " & " song.primary_artist_name
  let featured_artists := song.featured_artists
  if pyStartswith "Genius" (primary_artists.headD "") && featured_artists.isEmpty then
    let title2 := pyStripList (transParenSub song.title.toList)
    (unpack2 ((splitCharList '-' title2).map (fun p => pyStripList p))).map
      (fun p => (p.2.asString, pySplit " & " p.1.asString, featured_artists))
  else
    some (song.title, primary_artists, song.featured_artists)

/-- C4: evaluation of `get_song_metadata` at the translation-stub entry of
the claim.  The code returns `("Song Title (فارسی)", ["Artist Name"], [])`,
not the claimed `("Song Title", ["Artist Name"], [])`: the compiled pattern
`\([؀-ۿ]\)` matches only a SINGLE Arabic-script character between
the parentheses, so the five-character annotation `(فارسی)` is never
removed, although the code's own comment says the parenthesized translation
marker is stripped for Persian (the quantifier `+` is missing). -/
theorem get_song_metadata_translation_stub_eval :
    get_song_metadata
        { title := "Artist Name - Song Title (فارسی)",
          primary_artist_name := "Genius Translations",
          featured_artists := [] } =
      some ("Song Title (فارسی)", ["Artist Name"], []) := by
  decide

/-- C10: for a song whose primary artist name starts with `"Genius"` and
whose featured-artist list is empty, `get_song_metadata` raises `ValueError`
(modelled: returns `none`) exactly when the title, after the translation
parentheses substitution and stripping, does not contain exactly one `'-'`
character. -/
theorem get_song_metadata_none_iff_hyphens (song : Song)
    (h1 : pyStartswith "Genius" ((pySplit " & " song.primary_artist_name).headD "") = true)
    (h2 : song.featured_artists = []) :
    get_song_metadata song = none ↔
      countChar '-' (pyStripList (transParenSub song.title.toList)) ≠ 1 := by
  simp only [get_song_metadata, h1, h2, List.isEmpty_nil, Bool.and_self, if_true,
    Option.map_eq_none', unpack2_eq_none_iff, List.length_map, splitCharList_length]
  omega

/-- C10 witness: the theorem applied to a concrete hyphen-free stub title. -/
theorem get_song_metadata_none_iff_hyphens_witness :
    get_song_metadata
        { title := "NoHyphen", primary_artist_name := "Genius Translations",
          featured_artists := [] } = none ↔
      countChar '-' (pyStripList (transParenSub ("NoHyphen" : String).toList)) ≠ 1 :=
  get_song_metadata_none_iff_hyphens
    { title := "NoHyphen", primary_artist_name := "Genius Translations",
      featured_artists := [] }
    (by decide) rfl

/-! ## Snippet matcher (`find_matching_lyrics`, utils.py lines 180-204) -/

/-- Edit distance with substitution cost 2 (insertions and deletions cost 1),
the distance underlying `Levenshtein.ratio`: the ratio is
`(lensum - ldist) / lensum` with this weighting.  Fuel: the sum of the two
lengths suffices since every recursive call shortens one list. -/
def levW : Nat → List Char → List Char → Nat
  | _, [], ys => ys.length
  | _, x :: xs, [] => (x :: xs).length
  | 0, _, _ => 0
  | f + 1, x :: xs, y :: ys =>
    min (min (levW f xs (y :: ys) + 1) (levW f (x :: xs) ys + 1))
      (levW f xs ys + (if x = y then 0 else 2))

/-- The test `Levenshtein.ratio(a, b) > 0.75` of the source, in exact
integer arithmetic: `(lensum - ldist) / lensum > 3/4`, with the ratio of
two empty strings being `1.0`. -/
def levRatioGT075 (a b : String) : Bool :=
  let la := a.toList
  let lb := b.toList
  let s := la.length + lb.length
  if s == 0 then true else decide (4 * (s - levW s la lb) > 3 * s)

/-- Modelled from the spec: `clean_str` of the external provider client
(`lyricsgenius.utils`), which is not part of this repository — "the
provider's canonicalized form" of a lyrics line used for the substring
test; modelled as lower-casing and stripping surrounding whitespace.  The
theorems about `find_matching_lyrics` whose content does not depend on the
canonicalization are stated for an arbitrary canonicalizer. -/
def clean_str (s : String) : String :=
  (pyStripList (s.toList.map Char.toLower)).asString

/-- Python's substring test `sub in s`, on character lists. -/
def infixOfB (p : List Char) : List Char → Bool
  | [] => p.isEmpty
  | x :: xs => p.isPrefixOf (x :: xs) || infixOfB p xs

/-- The inner loop test of `find_matching_lyrics`: some candidate line
matches the full-lyrics line `line`, either by similarity ratio or because
its canonicalized form is a substring of the canonicalized line. -/
def lineMatches (cs : String → String) (lines : List String) (line : String) : Bool :=
  lines.any (fun found_line =>
    levRatioGT075 found_line line ||
      infixOfB (cs found_line).toList (cs line).toList)

/-- The outer loop of `find_matching_lyrics`: walk the full-lyrics lines,
append each line matched by some candidate, and stop early once the
accumulator reaches the candidate count. -/
def fmlAux (cs : String → String) (lines : List String) :
    List String → List String → List String
  | acc, [] => acc
  | acc, l :: rest =>
    let acc2 := if lineMatches cs lines l then acc ++ [l] else acc
    if acc2.length = lines.length then acc2 else fmlAux cs lines acc2 rest

/-- Embedding of `find_matching_lyrics(lines, lyrics)` (utils.py 180-204):
`return "\n".join(matching_lyrics) if matching_lyrics else None`. -/
def find_matching_lyrics (cs : String → String) (lines : List String)
    (lyrics : String) : Option String :=
  let matching_lyrics := fmlAux cs lines [] (pySplitChar '\n' lyrics)
  if matching_lyrics.isEmpty then none
  else some (String.intercalate "\n" matching_lyrics)

theorem fmlAux_ne_nil (cs : String → String) (lines : List String)
    (ls : List String) (acc : List String) (h : acc ≠ []) :
    fmlAux cs lines acc ls ≠ [] := by
  induction ls generalizing acc with
  | nil => exact h
  | cons l rest ih =>
    simp only [fmlAux]
    split
    · split
      · simp
      · exact ih _ (by simp)
    · split
      · exact h
      · exact ih _ h

theorem fmlAux_eq_nil_iff (cs : String → String) (lines : List String)
    (ls : List String) (acc : List String) :
    fmlAux cs lines acc ls = [] ↔
      (acc = [] ∧ ls.all (fun l => !(lineMatches cs lines l)) = true) := by
  induction ls generalizing acc with
  | nil => simp [fmlAux]
  | cons l rest ih =>
    simp only [fmlAux, List.all_cons]
    split
    · rename_i hm
      rw [hm]
      simp only [Bool.not_true, Bool.false_and]
      constructor
      · intro habs
        exfalso
        by_cases hlen : (acc ++ [l]).length = lines.length
        · rw [if_pos hlen] at habs
          simp at habs
        · rw [if_neg hlen] at habs
          exact fmlAux_ne_nil cs lines rest (acc ++ [l]) (by simp) habs
      · intro hr
        exact absurd hr.2 (by simp)
    · rename_i hm
      simp only [Bool.not_eq_true] at hm
      rw [hm]
      simp only [Bool.not_false, Bool.true_and]
      by_cases hlen : acc.length = lines.length
      · rw [if_pos hlen]
        constructor
        · intro hacc
          subst hacc
          refine ⟨rfl, ?_⟩
          have hlines : lines = [] := by
            have h0 : lines.length = 0 := by simpa using hlen.symm
            exact List.length_eq_zero.mp h0
          subst hlines
          simp only [List.all_eq_true]
          intro x hx
          have hfalse : lineMatches cs [] x = false := rfl
          simp [hfalse]
        · intro hr
          exact hr.1
      · rw [if_neg hlen]
        exact ih acc

/-- C1 (counterexample): with candidates `["a", "b"]` and full lyrics
`"a"`, only one of the two candidate lines is ever matched, yet the
function returns the partial match `some "a"`, not `null`: partial matches
are returned, not discarded. -/
theorem find_matching_lyrics_partial_cex :
    (fmlAux clean_str ["a", "b"] [] (pySplitChar '\n' "a")).length = 1 ∧
      1 < (["a", "b"] : List String).length ∧
      find_matching_lyrics clean_str ["a", "b"] "a" = some "a" := by
  decide

/-- C1 (amended): `find_matching_lyrics` is a total function (the embedding
never fails), and it returns `null` exactly when NO full-lyrics line is
matched by any candidate; whenever at least one line matches — even if
fewer than the candidate count — the newline-joined (possibly partial)
match is returned. -/
theorem find_matching_lyrics_eq_none_iff (cs : String → String)
    (lines : List String) (lyrics : String) :
    find_matching_lyrics cs lines lyrics = none ↔
      (pySplitChar '\n' lyrics).all (fun l => !(lineMatches cs lines l)) = true := by
  simp only [find_matching_lyrics]
  split
  · rename_i hempty
    rw [List.isEmpty_iff] at hempty
    simp only [true_iff]
    exact ((fmlAux_eq_nil_iff cs lines (pySplitChar '\n' lyrics) []).mp hempty).2
  · rename_i hempty
    rw [List.isEmpty_iff] at hempty
    simp only [reduceCtorEq, false_iff]
    intro hall
    exact hempty ((fmlAux_eq_nil_iff cs lines (pySplitChar '\n' lyrics) []).mpr ⟨rfl, hall⟩)

/-! ## Tag filter (`remove_unsupported_tags`, utils.py lines 106-131)

The BeautifulSoup document is modelled as a list of HTML nodes (the
soup's top-level children); an element node carries its tag name, its
attributes and its ordered children, a text node its string.  -/

/-- HTML tree node (BeautifulSoup `Tag` / `NavigableString`). -/
inductive HNode where
  | text (s : String)
  | elem (name : String) (attrs : List (String × String)) (children : List HNode)

mutual

/-- BeautifulSoup `tag.text`: concatenation of all descendant strings. -/
def nodeText : HNode → String
  | .text s => s
  | .elem _ _ cs => nodesText cs

/-- Concatenated text of a node list, in document order. -/
def nodesText : List HNode → String
  | [] => ""
  | n :: ns => nodeText n ++ nodesText ns

end

mutual

/-- Number of nodes of a subtree. -/
def nodeCount : HNode → Nat
  | .text _ => 1
  | .elem _ _ cs => 1 + nodesCount cs

/-- Number of nodes of a forest. -/
def nodesCount : List HNode → Nat
  | [] => 0
  | n :: ns => nodeCount n + nodesCount ns

end

mutual

/-- Tag names of a node and all its descendant elements, in document order. -/
def nodeTags : HNode → List String
  | .text _ => []
  | .elem name _ cs => name :: nodesTags cs

/-- Tag names of all elements of a forest. -/
def nodesTags : List HNode → List String
  | [] => []
  | n :: ns => nodeTags n ++ nodesTags ns

end

/-- The loop test of `remove_unsupported_tags`: a node whose tag name is
present (`name is not None`, i.e. an element) and not in the supported
list. -/
def isBadTag (supported : List String) : HNode → Bool
  | .text _ => false
  | .elem name _ _ => !(supported.contains name)

/-- One pass of the `for tag in soup` loop of `remove_unsupported_tags`:
scan the TOP-LEVEL children left to right for the first element whose name
is not supported; unwrap it (replace it by its children) when its text is
non-empty, else decompose it (delete the subtree); `none` when the scan
finds no such element (the `while restart` loop then stops).  The Python
loop iterates `soup`'s direct children only, not all descendants. -/
def step (supported : List String) : List HNode → Option (List HNode)
  | [] => none
  | HNode.text s :: cs => (step supported cs).map (fun r => HNode.text s :: r)
  | HNode.elem name attrs children :: cs =>
    if supported.contains name then
      (step supported cs).map (fun r => HNode.elem name attrs children :: r)
    else
      some (if nodesText children = "" then cs else children ++ cs)

/-- The `while restart` loop of `remove_unsupported_tags`, with fuel. -/
def removeLoopF (supported : List String) : Nat → List HNode → List HNode
  | 0, doc => doc
  | f + 1, doc =>
    match step supported doc with
    | none => doc
    | some doc2 => removeLoopF supported f doc2

/-- Embedding of `remove_unsupported_tags(soup, supported)`.  Fuel
`nodesCount doc + 1` suffices because every pass strictly decreases the
node count (`removeLoopF_fix`). -/
def remove_unsupported_tags (doc : List HNode) (supported : List String) : List HNode :=
  removeLoopF supported (nodesCount doc + 1) doc

theorem nodesCount_append (a b : List HNode) :
    nodesCount (a ++ b) = nodesCount a + nodesCount b := by
  induction a with
  | nil => simp [nodesCount]
  | cons n ns ih => simp [nodesCount, ih]; omega

theorem nodesText_append (a b : List HNode) :
    nodesText (a ++ b) = nodesText a ++ nodesText b := by
  induction a with
  | nil => simp [nodesText]
  | cons n ns ih => simp [nodesText, ih, String.append_assoc]

theorem step_some_count (supported : List String) (doc doc2 : List HNode)
    (h : step supported doc = some doc2) : nodesCount doc2 < nodesCount doc := by
  induction doc generalizing doc2 with
  | nil => simp [step] at h
  | cons n ns ih =>
    match n with
    | HNode.text s =>
      simp only [step, Option.map_eq_some'] at h
      obtain ⟨r, hr, hd⟩ := h
      subst hd
      have := ih r hr
      simp only [nodesCount, nodeCount]
      omega
    | HNode.elem name attrs children =>
      simp only [step] at h
      split at h
      · simp only [Option.map_eq_some'] at h
        obtain ⟨r, hr, hd⟩ := h
        subst hd
        have := ih r hr
        simp only [nodesCount, nodeCount]
        omega
      · have hd := Option.some.inj h
        subst hd
        split
        · simp only [nodesCount, nodeCount]
          omega
        · rw [nodesCount_append]
          simp only [nodesCount, nodeCount]
          omega

theorem step_none_sound (supported : List String) (doc : List HNode)
    (h : step supported doc = none) :
    doc.all (fun n => !(isBadTag supported n)) = true := by
  induction doc with
  | nil => rfl
  | cons n ns ih =>
    match n with
    | HNode.text s =>
      simp only [step, Option.map_eq_none'] at h
      simp only [List.all_cons, isBadTag, Bool.not_false, Bool.true_and]
      exact ih h
    | HNode.elem name attrs children =>
      simp only [step] at h
      split at h
      · rename_i hsup
        simp only [Option.map_eq_none'] at h
        simp only [List.all_cons, isBadTag, hsup, Bool.not_true, Bool.not_not,
          Bool.true_and]
        exact ih h
      · simp at h

theorem step_text (supported : List String) (doc doc2 : List HNode)
    (h : step supported doc = some doc2) : nodesText doc2 = nodesText doc := by
  induction doc generalizing doc2 with
  | nil => simp [step] at h
  | cons n ns ih =>
    match n with
    | HNode.text s =>
      simp only [step, Option.map_eq_some'] at h
      obtain ⟨r, hr, hd⟩ := h
      subst hd
      simp only [nodesText, nodeText, ih r hr]
    | HNode.elem name attrs children =>
      simp only [step] at h
      split at h
      · simp only [Option.map_eq_some'] at h
        obtain ⟨r, hr, hd⟩ := h
        subst hd
        simp only [nodesText, nodeText, ih r hr]
      · have hd := Option.some.inj h
        subst hd
        split
        · rename_i htxt
          simp only [nodesText, nodeText, htxt, String.empty_append]
        · rw [nodesText_append]
          simp only [nodesText, nodeText]

theorem removeLoopF_fix (supported : List String) (fuel : Nat) (doc : List HNode)
    (h : nodesCount doc < fuel) :
    step supported (removeLoopF supported fuel doc) = none := by
  induction fuel generalizing doc with
  | zero => omega
  | succ f ih =>
    simp only [removeLoopF]
    cases hs : step supported doc with
    | none => exact hs
    | some doc2 =>
      have := step_some_count supported doc doc2 hs
      exact ih doc2 (by omega)

theorem removeLoopF_text (supported : List String) (fuel : Nat) (doc : List HNode) :
    nodesText (removeLoopF supported fuel doc) = nodesText doc := by
  induction fuel generalizing doc with
  | zero => rfl
  | succ f ih =>
    simp only [removeLoopF]
    cases hs : step supported doc with
    | none => rfl
    | some doc2 => rw [ih doc2, step_text supported doc doc2 hs]

/-- C2 (counterexample): with the document `<b><i>x</i></b>` and allow-list
`["b"]`, `remove_unsupported_tags` returns the tree unchanged even though
the descendant `<i>` is outside the allow-list: the Python loop
`for tag in soup` iterates only the soup's direct children and never
descends into supported elements. -/
theorem remove_unsupported_tags_nested_cex :
    remove_unsupported_tags
        [HNode.elem "b" [] [HNode.elem "i" [] [HNode.text "x"]]] ["b"] =
      [HNode.elem "b" [] [HNode.elem "i" [] [HNode.text "x"]]] ∧
    "i" ∈ nodesTags (remove_unsupported_tags
        [HNode.elem "b" [] [HNode.elem "i" [] [HNode.text "x"]]] ["b"]) ∧
    "i" ∉ ["b"] := by
  refine ⟨rfl, ?_, ?_⟩ <;> decide

/-- C2 (amended): after `remove_unsupported_tags(tree, allowed)` returns,
no TOP-LEVEL element of the tree has a tag name outside the allow-list
(elements nested below supported elements are not examined), and the
concatenated text of the whole tree is preserved verbatim in document
order (unwrapped elements contribute the text of their children in place;
decomposed elements have empty text). -/
theorem remove_unsupported_tags_top_level_clean (doc : List HNode)
    (supported : List String) :
    (remove_unsupported_tags doc supported).all
        (fun n => !(isBadTag supported n)) = true ∧
      nodesText (remove_unsupported_tags doc supported) = nodesText doc := by
  constructor
  · exact step_none_sound supported _
      (removeLoopF_fix supported (nodesCount doc + 1) doc (Nat.lt_succ_self _))
  · exact removeLoopF_text supported (nodesCount doc + 1) doc

/-! ## Annotation inliner (`format_annotations`, utils.py lines 269-334)

The lyrics HTML and the annotation bodies are taken already parsed (the
parse is BeautifulSoup's; adjacent text runs are modelled without merging,
which no claim depends on).  The `annotations` mapping is an association
list from the anchor `href` id to the parsed annotation body.  Python's
`a.attrs["href"]` and `annotations[annotation_id]` raise `KeyError` for a
missing key; this is modelled by returning `none`. -/

/-- Association-list lookup, modelling Python `dict` access. -/
def lookupAssoc {α : Type} (m : List (String × α)) (k : String) : Option α :=
  (m.find? (fun p => p.1 == k)).map Prod.snd

/-- The `<annotation>` wrapper built around the annotation body: in the
`"zip"` format the body is wrapped between the two identifiers, each on its
own line; otherwise the raw body is wrapped. -/
def mkAnnotBlock (format_type : String) (identifiers : String × String)
    (body : List HNode) : HNode :=
  if format_type = "zip" then
    HNode.elem "annotation" []
      (HNode.text ("\n" ++ identifiers.1 ++ "\n") ::
        (body ++ [HNode.text ("\n" ++ identifiers.2 ++ "\n")]))
  else
    HNode.elem "annotation" [] body

mutual

/-- Sanitization of the annotation subtree (the `for tag in
annotation.descendants` loop): every attribute except `href` is dropped
from every element; `div`, `script` and `iframe` elements are decomposed
(subtree deleted); `blockquote` elements are unwrapped (replaced by their
children). -/
def sanitizeNode : HNode → List HNode
  | .text s => [.text s]
  | .elem name attrs cs =>
    if ["div", "script", "iframe"].contains name then []
    else if name = "blockquote" then sanitizeNodes cs
    else [.elem name (attrs.filter (fun p => p.1 == "href")) (sanitizeNodes cs)]

/-- Sanitization of a forest. -/
def sanitizeNodes : List HNode → List HNode
  | [] => []
  | n :: ns => sanitizeNode n ++ sanitizeNodes ns

end

mutual

/-- The `for a in soup.find_all("a")` loop of `format_annotations`, as a
document-order traversal threading the `used` list: an anchor whose `href`
id is already in `used` is skipped (`continue`) — BEFORE its attributes are
cleared, so it keeps them; otherwise the sanitized annotation block is
inserted immediately after the anchor, the anchor's attributes are cleared,
and the id is recorded in `used`. -/
def processNode (ann : List (String × List HNode)) (fmt : String)
    (ids : String × String) :
    HNode → List String → Option (List HNode × List String)
  | HNode.text s, used => some ([HNode.text s], used)
  | HNode.elem name attrs children, used =>
    if name = "a" then
      match lookupAssoc attrs "href" with
      | none => none
      | some annotId =>
        if used.contains annotId then
          (processNodes ann fmt ids children used).map
            (fun r => ([HNode.elem name attrs r.1], r.2))
        else
          match lookupAssoc ann annotId with
          | none => none
          | some body =>
            (processNodes ann fmt ids children (used ++ [annotId])).map
              (fun r =>
                (HNode.elem "a" [] r.1 :: sanitizeNode (mkAnnotBlock fmt ids body),
                  r.2))
    else
      (processNodes ann fmt ids children used).map
        (fun r => ([HNode.elem name attrs r.1], r.2))

/-- Traversal of a forest in document order, threading `used`. -/
def processNodes (ann : List (String × List HNode)) (fmt : String)
    (ids : String × String) :
    List HNode → List String → Option (List HNode × List String)
  | [], used => some ([], used)
  | n :: ns, used =>
    match processNode ann fmt ids n used with
    | none => none
    | some r1 =>
      match processNodes ann fmt ids ns r1.2 with
      | none => none
      | some r2 => some (r1.1 ++ r2.1, r2.2)

end

/-- Embedding of `format_annotations(lyrics, annotations,
include_annotations, identifiers, format_type)` (utils.py 269-334) on the
parsed lyrics tree.  When `include_annotations` is false or the annotation
mapping is empty, the parsed tree is returned unchanged. -/
def format_annotations (lyrics : List HNode) (ann : List (String × List HNode))
    (include_annotations : Bool) (ids : String × String) (format_type : String) :
    Option (List HNode) :=
  if include_annotations && !ann.isEmpty then
    (processNodes ann format_type ids lyrics []).map Prod.fst
  else
    some lyrics

/-- C3 (counterexample): two anchors sharing the reference id `"1"`.
Exactly one `<annotation>` block is inserted, immediately after the first
anchor, and the first anchor's attributes are cleared — but the second
anchor KEEPS its `href` attribute, because the duplicate check `continue`s
before `a.attrs.clear()` is reached; the claim that both anchors end with
no attributes is false. -/
theorem format_annotations_duplicate_cex :
    format_annotations
        [HNode.elem "a" [("href", "1")] [HNode.text "x"],
          HNode.text "m",
          HNode.elem "a" [("href", "1")] [HNode.text "y"]]
        [("1", [HNode.text "note"])] true ("!--!", "!__!") "zip" =
      some
        [HNode.elem "a" [] [HNode.text "x"],
          HNode.elem "annotation" []
            [HNode.text "\n!--!\n", HNode.text "note", HNode.text "\n!__!\n"],
          HNode.text "m",
          HNode.elem "a" [("href", "1")] [HNode.text "y"]] ∧
      [("href", "1")] ≠ ([] : List (String × String)) := by
  refine ⟨rfl, ?_⟩
  decide

/-- C3 (amended): for any HTML input of the shape
`<a href=id>x</a> m <a href=id>y</a>` whose id maps to a plain-text
annotation body, `format_annotations` with `include_annotations` inserts
exactly one `<annotation>` block, immediately after the FIRST anchor; the
first anchor's attributes are cleared, while the second anchor — skipped
as a duplicate before its attributes are touched — retains its attributes
unchanged. -/
theorem format_annotations_duplicate_shape (annotId x y m note : String) :
    format_annotations
        [HNode.elem "a" [("href", annotId)] [HNode.text x],
          HNode.text m,
          HNode.elem "a" [("href", annotId)] [HNode.text y]]
        [(annotId, [HNode.text note])] true ("!--!", "!__!") "zip" =
      some
        [HNode.elem "a" [] [HNode.text x],
          HNode.elem "annotation" []
            [HNode.text "\n!--!\n", HNode.text note, HNode.text "\n!__!\n"],
          HNode.text m,
          HNode.elem "a" [("href", annotId)] [HNode.text y]] := by
  simp [format_annotations, processNodes, processNode, lookupAssoc,
    mkAnnotBlock, sanitizeNode, sanitizeNodes, List.find?, List.contains_cons]

/-! ## Layout normalizer (`remove_extra_newlines`, utils.py lines 134-147)

The compiled pattern is `newline_pattern = (\n|<br\s*[/]*>){2,}(?!\[)`,
substituted by a single newline.  The backtracking semantics realized by
the scanner below (validated against the Python engine): at each position,
parse the maximal run of `n` break markers; if `n ≥ 2` and the character
after the run is not `[`, the whole run is replaced by one newline; if the
next character IS `[`, the greedy quantifier backtracks one marker, so for
`n ≥ 3` the first `n-1` markers are replaced by one newline (leaving the
final marker before the bracket), and for `n = 2` there is no match and
the scan advances one character. -/

/-- One break marker: a newline, or `<br` followed by optional whitespace,
optional slashes and `>` (the regex alternative `\n|<br\s*[/]*>`); returns
the rest after the marker. -/
def parseMarker : List Char → Option (List Char)
  | [] => none
  | c :: rest =>
    if c = '\n' then some rest
    else if c = '<' then
      match rest with
      | 'b' :: 'r' :: rest2 =>
        match (rest2.dropWhile pyIsSpace).dropWhile (fun x => x == '/') with
        | '>' :: r3 => some r3
        | _ => none
      | _ => none
    else none

/-- Maximal marker-run information: `some (n, restPrev, restLast)` when at
least one marker starts here, with `n` the maximal number of consecutive
markers, `restPrev` the rest after `n-1` markers and `restLast` the rest
after all `n`.  Fuel: each marker consumes at least one character. -/
def markerRunInfo : Nat → List Char → Option (Nat × List Char × List Char)
  | 0, _ => none
  | f + 1, l =>
    match parseMarker l with
    | none => none
    | some r =>
      match markerRunInfo f r with
      | none => some (1, l, r)
      | some (n, rp, rl) => some (n + 1, rp, rl)

/-- The scanner of `newline_pattern.sub("\n", s)`, with fuel. -/
def collapseF : Nat → List Char → List Char
  | _, [] => []
  | 0, l => l
  | f + 1, c :: cs =>
    match markerRunInfo (c :: cs).length (c :: cs) with
    | none => c :: collapseF f cs
    | some (n, restPrev, restLast) =>
      if n < 2 then c :: collapseF f cs
      else
        match restLast with
        | '[' :: _ =>
          if 3 ≤ n then '\n' :: collapseF f restPrev
          else c :: collapseF f cs
        | _ => '\n' :: collapseF f restLast

/-- Embedding of `remove_extra_newlines(s)` (utils.py 134-147). -/
def remove_extra_newlines (s : String) : String :=
  (collapseF s.toList.length s.toList).asString

/-! ## Language splitter (`format_language`, utils.py lines 15-33, 219-266)

`remove_non_english.sub("\\1", s)` with pattern
`(\[[^\]\n]+\]|\\n|!--![\S\s]*?!__!|<.*?>)|.*[^\x00-\x7F].*` (MULTILINE)
keeps section headers, literal `\n` escapes, annotation-delimited spans and
inline tags (group 1 replaced by itself), and deletes any remainder of a
line that contains a non-ASCII character.  `remove_english.sub` is the
symmetric pattern with the extra literal alternative `\\u200[5c]` and the
line-anchored final alternative `^.*[a-zA-Z]+.*`, deleting lines that
contain an ASCII letter.  The scanners below realize these substitutions
position by position with the alternation order of the patterns (validated
against the Python engine). -/

/-- A character outside the 7-bit ASCII range (`[^\x00-\x7F]`). -/
def nonAsciiChar (c : Char) : Bool :=
  decide (0x7F < c.toNat)

/-- An ASCII letter (`[a-zA-Z]`). -/
def asciiLetter (c : Char) : Bool :=
  ('a' ≤ c && c ≤ 'z') || ('A' ≤ c && c ≤ 'Z')

/-- Alternative `\[[^\]\n]+\]`: a section header `[...]` with a non-empty
body free of `]` and newlines; returns the matched span and the rest. -/
def altHeader : List Char → Option (List Char × List Char)
  | [] => none
  | c :: rest =>
    if c = '[' then
      let mid := rest.takeWhile (fun x => !(x == ']') && !(x == '\n'))
      match rest.drop mid.length with
      | ']' :: rest2 =>
        if mid.isEmpty then none else some ('[' :: (mid ++ [']']), rest2)
      | _ => none
    else none

/-- Alternative `\\n`: a literal backslash-n escape. -/
def altEscape : List Char → Option (List Char × List Char)
  | [] => none
  | c :: rest =>
    if c = '\\' then
      match rest with
      | 'n' :: rest2 => some (['\\', 'n'], rest2)
      | _ => none
    else none

/-- Alternative `\\u200[5c]`: a literal ` ` or `‌` escape (only
in the `remove_english` pattern). -/
def altUnicodeEsc : List Char → Option (List Char × List Char)
  | [] => none
  | c :: rest =>
    if c = '\\' then
      match rest with
      | 'u' :: '2' :: '0' :: '0' :: d :: rest2 =>
        if d = '5' || d = 'c' then some (['\\', 'u', '2', '0', '0', d], rest2)
        else none
      | _ => none
    else none

/-- Leftmost occurrence of the closer `!__!`: `some (before, after)` splits
the list around the first occurrence. -/
def findCloser : List Char → Option (List Char × List Char)
  | [] => none
  | x :: xs =>
    if ['!', '_', '_', '!'].isPrefixOf (x :: xs) then some ([], (x :: xs).drop 4)
    else
      match findCloser xs with
      | none => none
      | some (b, a) => some (x :: b, a)

/-- Alternative `!--![\S\s]*?!__!`: an annotation-delimited span; the lazy
quantifier takes the earliest closer. -/
def altAnnotSpan : List Char → Option (List Char × List Char)
  | [] => none
  | c :: rest =>
    if c = '!' then
      match rest with
      | '-' :: '-' :: '!' :: rest2 =>
        match findCloser rest2 with
        | none => none
        | some (mid, after) =>
          some ('!' :: '-' :: '-' :: '!' :: (mid ++ ['!', '_', '_', '!']), after)
      | _ => none
    else none

/-- Alternative `<.*?>`: an inline tag; the lazy quantifier stops at the
first `>` on the same line. -/
def altTag : List Char → Option (List Char × List Char)
  | [] => none
  | c :: rest =>
    if c = '<' then
      let mid := rest.takeWhile (fun x => !(x == '>') && !(x == '\n'))
      match rest.drop mid.length with
      | '>' :: rest2 => some ('<' :: (mid ++ ['>']), rest2)
      | _ => none
    else none

/-- Group-1 alternation of `remove_non_english`, tried in pattern order. -/
def groupAltEng (l : List Char) : Option (List Char × List Char) :=
  match altHeader l with
  | some r => some r
  | none =>
    match altEscape l with
    | some r => some r
    | none =>
      match altAnnotSpan l with
      | some r => some r
      | none => altTag l

/-- Group-1 alternation of `remove_english`, tried in pattern order. -/
def groupAltNE (l : List Char) : Option (List Char × List Char) :=
  match altHeader l with
  | some r => some r
  | none =>
    match altEscape l with
    | some r => some r
    | none =>
      match altUnicodeEsc l with
      | some r => some r
      | none =>
        match altAnnotSpan l with
        | some r => some r
        | none => altTag l

/-- Scanner of `remove_non_english.sub("\\1", s)`: at each position, a
group-1 span is kept verbatim; otherwise, if the remainder of the current
line contains a non-ASCII character, that remainder is deleted (the final
alternative `.*[^\x00-\x7F].*` matches it and group 1 is empty); otherwise
the character is emitted.  Fuel: every step consumes at least one
character. -/
def subEngF : Nat → List Char → List Char
  | _, [] => []
  | 0, l => l
  | f + 1, c :: cs =>
    match groupAltEng (c :: cs) with
    | some (span, rest) => span ++ subEngF f rest
    | none =>
      let ln := (c :: cs).takeWhile (fun x => !(x == '\n'))
      if ln.any nonAsciiChar then subEngF f ((c :: cs).drop ln.length)
      else c :: subEngF f cs

/-- Scanner of `remove_english.sub("\\1", s)`: as `subEngF`, but the
deleting alternative `^.*[a-zA-Z]+.*` is anchored at line starts
(`re.MULTILINE`), tracked by the `bol` flag, and deletes a line containing
an ASCII letter. -/
def subNEF : Nat → Bool → List Char → List Char
  | _, _, [] => []
  | 0, _, l => l
  | f + 1, bol, c :: cs =>
    match groupAltNE (c :: cs) with
    | some (span, rest) => span ++ subNEF f false rest
    | none =>
      let ln := (c :: cs).takeWhile (fun x => !(x == '\n'))
      if bol && ln.any asciiLetter then subNEF f false ((c :: cs).drop ln.length)
      else c :: subNEF f (c == '\n') cs

/-- The inner `string_formatter` of `format_language` (utils.py 239-245):
apply the language substitution selected by `lyrics_language`, then
`remove_extra_newlines`. -/
def string_formatter (lyrics_language : String) (s : String) : String :=
  let s1 :=
    if lyrics_language = "English" then (subEngF s.toList.length s.toList).asString
    else if lyrics_language = "Non-English" then
      (subNEF s.toList.length true s.toList).asString
    else s
  remove_extra_newlines s1

/-- Input of `format_language`: a parsed document (given by its non-blank
text runs in document order; comments are omitted from the model), a plain
string, or a value of any other type. -/
inductive LyricsInput where
  | tree (runs : List String)
  | plain (s : String)
  | unknown

/-- Result of `format_language`: the mutated document's text runs, or the
document parsed from the formatted string (represented by its text). -/
inductive FLResult where
  | doc (runs : List String)
  | parsed (text : String)

/-- Embedding of `format_language(lyrics, lyrics_language)` (utils.py
219-266).  On a document, every text run whose stripped form is non-empty
is replaced by its formatted form; on a string, the formatted string is
parsed (`BeautifulSoup(..., "html.parser")`, represented by the text); any
other input raises `TypeError`, modelled as `none`. -/
def format_language (lyrics : LyricsInput) (lyrics_language : String) :
    Option FLResult :=
  match lyrics with
  | .tree runs =>
    some (.doc (runs.map (fun r =>
      if (pyStrip r).toList.length != 0 then string_formatter lyrics_language r
      else r)))
  | .plain s => some (.parsed (string_formatter lyrics_language s))
  | .unknown => none

/-- C5: `format_language` with English-only preference applied to
`"Hello\n[Chorus]\nسلام\nworld"` yields a document whose text is
`"Hello\n[Chorus]\nworld"`: the non-ASCII line is removed, the section
header is kept, and the resulting blank line is collapsed. -/
theorem format_language_english_example :
    format_language (LyricsInput.plain "Hello\n[Chorus]\nسلام\nworld") "English" =
      some (FLResult.parsed "Hello\n[Chorus]\nworld") := rfl

/-- C8: `format_language` raises a type error (modelled: returns `none`)
exactly when its lyrics argument is neither a structured document nor a
string; for documents and strings it returns normally. -/
theorem format_language_typeerror_iff (lyrics : LyricsInput) (lang : String) :
    format_language lyrics lang = none ↔ lyrics = LyricsInput.unknown := by
  cases lyrics <;> simp [format_language]

/-- C7 (counterexample): on `"a\n\n\n["` the run of three newlines is
immediately followed by the section-header bracket, yet it is NOT left
as-is — nor replaced by exactly one newline: the greedy `{2,}` backtracks
one marker past the failing lookahead, so the result is `"a\n\n["`. -/
theorem remove_extra_newlines_bracket_cex :
    remove_extra_newlines "a\n\n\n[" = "a\n\n[" ∧
      ("a\n\n[" : String) ≠ "a\n\n\n[" ∧ ("a\n\n[" : String) ≠ "a\n[" := by
  refine ⟨rfl, by decide, by decide⟩

/-- C6 (counterexample): `format_language` with the English preference is
not idempotent.  On the single-run document `"[aس<br><br>b]"` the first
application keeps the whole line as a section header (the header
alternative protects its non-ASCII body) but then collapses the `<br><br>`
inside it to a newline, producing `"[aس\nb]"`; the second application no
longer sees a header (the bracket is no longer closed on its line), so the
non-ASCII remainder `"[aس"` is deleted, producing `"\nb]"` — a different
result. -/
theorem format_language_not_idem_cex :
    format_language (LyricsInput.tree ["[aس<br><br>b]"]) "English" =
        some (FLResult.doc ["[aس\nb]"]) ∧
      format_language (LyricsInput.tree ["[aس\nb]"]) "English" =
        some (FLResult.doc ["\nb]"]) ∧
      ("\nb]" : String) ≠ "[aس\nb]" := by
  refine ⟨rfl, rfl, by decide⟩

/-! ## General behavior of the newline collapse (C7) -/

theorem markerRunInfo_none (f : Nat) (l : List Char) (h : parseMarker l = none) :
    markerRunInfo f l = none := by
  cases f <;> simp [markerRunInfo, h]

theorem parseMarker_replicate_succ (m : Nat) (r : List Char) :
    parseMarker (List.replicate (m + 1) '\n' ++ r) =
      some (List.replicate m '\n' ++ r) := by
  simp [List.replicate_succ, parseMarker]

theorem markerRunInfo_replicate_aux (r : List Char) (hr : parseMarker r = none) :
    ∀ m f, m + 1 ≤ f →
      markerRunInfo f (List.replicate (m + 1) '\n' ++ r) =
        some (m + 1, '\n' :: r, r) := by
  intro m
  induction m with
  | zero =>
    intro f hf
    match f, hf with
    | f2 + 1, _ =>
      simp [markerRunInfo, parseMarker, markerRunInfo_none f2 r hr,
        List.replicate_succ]
  | succ m ih =>
    intro f hf
    match f, hf with
    | f2 + 1, _ =>
      simp only [markerRunInfo, parseMarker_replicate_succ (m + 1) r,
        ih f2 (by omega)]

theorem markerRunInfo_replicate (r : List Char) (hr : parseMarker r = none)
    (m f : Nat) (h1 : 1 ≤ m) (h2 : m ≤ f) :
    markerRunInfo f (List.replicate m '\n' ++ r) = some (m, '\n' :: r, r) := by
  match m, h1 with
  | m2 + 1, _ => exact markerRunInfo_replicate_aux r hr m2 f h2

theorem collapseF_step_nomarker (f : Nat) (c : Char) (cs : List Char)
    (h : parseMarker (c :: cs) = none) :
    collapseF (f + 1) (c :: cs) = c :: collapseF f cs := by
  simp [collapseF, markerRunInfo_none _ _ h]

theorem collapseF_nil (f : Nat) : collapseF f [] = [] := by
  cases f <;> rfl

theorem collapseF_single (f : Nat) (c : Char) (h : parseMarker [c] = none) :
    collapseF f [c] = [c] := by
  cases f with
  | zero => rfl
  | succ f2 => rw [collapseF_step_nomarker f2 c [] h, collapseF_nil]

theorem collapse_run_b (k f : Nat) (hf : k + 3 ≤ f) :
    collapseF f (List.replicate (k + 2) '\n' ++ ['b']) = ['\n', 'b'] := by
  match f, hf with
  | f2 + 1, _ =>
    have hcons : List.replicate (k + 2) '\n' ++ ['b'] =
        '\n' :: (List.replicate (k + 1) '\n' ++ ['b']) := by
      simp [List.replicate_succ]
    rw [hcons]
    simp only [collapseF]
    rw [← hcons]
    have hlen : (List.replicate (k + 2) '\n' ++ ['b']).length = k + 3 := by simp
    rw [hlen, markerRunInfo_replicate ['b'] rfl (k + 2) (k + 3) (by omega) (by omega)]
    rw [show ((some (k + 2, '\n' :: ['b'], ['b']) :
        Option (Nat × List Char × List Char))) = some (k + 2, ['\n', 'b'], ['b'])
      from rfl]
    simp only [if_neg (by omega : ¬k + 2 < 2)]
    rw [collapseF_single f2 'b' rfl]
    rfl

theorem collapseF_nl_bracket (f : Nat) : collapseF f ['\n', '['] = ['\n', '['] := by
  cases f with
  | zero => rfl
  | succ f2 =>
    simp only [collapseF]
    rw [show markerRunInfo (['\n', '['] : List Char).length ['\n', '['] =
        some (1, ['\n', '['], ['[']) from rfl]
    simp only [if_pos (by omega : (1 : Nat) < 2)]
    rw [collapseF_single f2 '[' rfl]

theorem collapse_run_bracket (k f : Nat) (hf : k + 4 ≤ f) :
    collapseF f (List.replicate (k + 3) '\n' ++ ['[']) = ['\n', '\n', '['] := by
  match f, hf with
  | f2 + 1, _ =>
    have hcons : List.replicate (k + 3) '\n' ++ ['['] =
        '\n' :: (List.replicate (k + 2) '\n' ++ ['[']) := by
      simp [List.replicate_succ]
    rw [hcons]
    simp only [collapseF]
    rw [← hcons]
    have hlen : (List.replicate (k + 3) '\n' ++ ['[']).length = k + 4 := by simp
    rw [hlen, markerRunInfo_replicate ['['] rfl (k + 3) (k + 4) (by omega) (by omega)]
    rw [show ((some (k + 3, '\n' :: ['['], ['[']) :
        Option (Nat × List Char × List Char))) = some (k + 3, ['\n', '['], ['['])
      from rfl]
    simp only [if_neg (by omega : ¬k + 3 < 2), if_pos (by omega : 3 ≤ k + 3)]
    rw [collapseF_nl_bracket f2]

/-- C7 (amended): `remove_extra_newlines` replaces a maximal run of 2+
newline markers between text by exactly one newline
(`"a\n\n\n\nb" → "a\nb"`, and for every run length `k+2`); a run of
EXACTLY two markers immediately followed by the section-header bracket is
left as-is (`"a\n\n[Chorus]"`, `"a\n\n["` unchanged); but a run of three
or more markers before the bracket is NOT left as-is: the greedy
quantifier backtracks one marker past the failing lookahead, collapsing
the run to exactly two newlines (`"a" ++ "\n"*(k+3) ++ "[" → "a\n\n["`). -/
theorem remove_extra_newlines_behavior :
    remove_extra_newlines "a\n\n\n\nb" = "a\nb" ∧
      remove_extra_newlines "a\n\n[Chorus]" = "a\n\n[Chorus]" ∧
      (∀ k : Nat,
        remove_extra_newlines
            (String.mk ('a' :: (List.replicate (k + 2) '\n' ++ ['b']))) = "a\nb") ∧
      (∀ k : Nat,
        remove_extra_newlines
            (String.mk ('a' :: (List.replicate (k + 3) '\n' ++ ['[']))) = "a\n\n[") ∧
      remove_extra_newlines "a\n\n[" = "a\n\n[" := by
  refine ⟨rfl, rfl, ?_, ?_, rfl⟩
  · intro k
    unfold remove_extra_newlines
    rw [show (String.mk ('a' :: (List.replicate (k + 2) '\n' ++ ['b']))).toList =
        'a' :: (List.replicate (k + 2) '\n' ++ ['b']) from rfl]
    rw [show ('a' :: (List.replicate (k + 2) '\n' ++ ['b'])).length = (k + 3) + 1 by
      simp]
    rw [collapseF_step_nomarker (k + 3) 'a' _ rfl]
    rw [collapse_run_b k (k + 3) (by omega)]
    rfl
  · intro k
    unfold remove_extra_newlines
    rw [show (String.mk ('a' :: (List.replicate (k + 3) '\n' ++ ['[']))).toList =
        'a' :: (List.replicate (k + 3) '\n' ++ ['[']) from rfl]
    rw [show ('a' :: (List.replicate (k + 3) '\n' ++ ['['])).length = (k + 4) + 1 by
      simp]
    rw [collapseF_step_nomarker (k + 4) 'a' _ rfl]
    rw [collapse_run_bracket k (k + 4) (by omega)]
    rfl

/-! ## Idempotence of `format_language` on stable inputs (C6) -/

/-- A character on which none of the language-splitter alternatives or the
collapse markers can act: ASCII, not `<`, `[`, `\`, `!`, and not an ASCII
letter (so the Non-English stripping alternative cannot fire either). -/
def stableChar (c : Char) : Bool :=
  decide (c.toNat < 0x80) && !(c == '<') && !(c == '[') && !(c == '\\') &&
    !(c == '!') && !(asciiLetter c)

/-- No two consecutive newline characters. -/
def noTwoNl : List Char → Bool
  | c :: d :: rest => if c == '\n' && d == '\n' then false else noTwoNl (d :: rest)
  | _ => true

/-- A text run on which `string_formatter` acts as the identity for every
language preference. -/
def stableRun (s : String) : Bool :=
  s.toList.all stableChar && noTwoNl s.toList

theorem noTwoNl_tail (c : Char) (cs : List Char) (h : noTwoNl (c :: cs) = true) :
    noTwoNl cs = true := by
  cases cs with
  | nil => rfl
  | cons d ds =>
    simp only [noTwoNl] at h
    split at h
    · exact absurd h (by simp)
    · exact h

theorem noTwoNl_head (d : Char) (ds : List Char)
    (h : noTwoNl ('\n' :: d :: ds) = true) : ¬d = '\n' := by
  intro hd
  subst hd
  simp [noTwoNl] at h

theorem takeWhile_all (p q : Char → Bool) (l : List Char) (h : l.all q = true) :
    (l.takeWhile p).all q = true := by
  induction l with
  | nil => rfl
  | cons c cs ih =>
    rw [List.all_cons, Bool.and_eq_true] at h
    rw [List.takeWhile_cons]
    split
    · rw [List.all_cons, Bool.and_eq_true]
      exact ⟨h.1, ih h.2⟩
    · rfl

theorem stableChar_props (c : Char) (h : stableChar c = true) :
    c.toNat < 0x80 ∧ ¬c = '<' ∧ ¬c = '[' ∧ ¬c = '\\' ∧ ¬c = '!' ∧
      asciiLetter c = false := by
  simp only [stableChar, Bool.and_eq_true, decide_eq_true_eq, Bool.not_eq_true',
    beq_eq_false_iff_ne, ne_eq, Bool.not_eq_true] at h
  exact ⟨h.1.1.1.1.1, h.1.1.1.1.2, h.1.1.1.2, h.1.1.2, h.1.2, h.2⟩

theorem groupAltEng_none_of_stable (c : Char) (cs : List Char)
    (h : stableChar c = true) : groupAltEng (c :: cs) = none := by
  obtain ⟨_, h1, h2, h3, h4, _⟩ := stableChar_props c h
  simp [groupAltEng, altHeader, altEscape, altAnnotSpan, altTag, h1, h2, h3, h4]

theorem groupAltNE_none_of_stable (c : Char) (cs : List Char)
    (h : stableChar c = true) : groupAltNE (c :: cs) = none := by
  obtain ⟨_, h1, h2, h3, h4, _⟩ := stableChar_props c h
  simp [groupAltNE, altHeader, altEscape, altUnicodeEsc, altAnnotSpan, altTag,
    h1, h2, h3, h4]

theorem stable_no_nonascii (l : List Char) (h : l.all stableChar = true) :
    l.any nonAsciiChar = false := by
  rw [List.any_eq_false]
  intro x hx
  have hs := (List.all_eq_true.mp h) x hx
  obtain ⟨ha, _⟩ := stableChar_props x hs
  simp only [nonAsciiChar, decide_eq_true_eq]
  omega

theorem stable_no_letter (l : List Char) (h : l.all stableChar = true) :
    l.any asciiLetter = false := by
  rw [List.any_eq_false]
  intro x hx
  have hs := (List.all_eq_true.mp h) x hx
  obtain ⟨_, _, _, _, _, hl⟩ := stableChar_props x hs
  simp [hl]

theorem subEngF_id (f : Nat) : ∀ l : List Char, l.all stableChar = true →
    subEngF f l = l := by
  induction f with
  | zero => intro l _; cases l <;> rfl
  | succ f2 ih =>
    intro l h
    cases l with
    | nil => rfl
    | cons c cs =>
      rw [List.all_cons, Bool.and_eq_true] at h
      obtain ⟨hc, hcs⟩ := h
      have hln : ((c :: cs).takeWhile (fun x => !(x == '\n'))).any nonAsciiChar
          = false :=
        stable_no_nonascii _ (takeWhile_all _ _ _
          (by rw [List.all_cons, Bool.and_eq_true]; exact ⟨hc, hcs⟩))
      simp only [subEngF, groupAltEng_none_of_stable c cs hc, hln,
        Bool.false_eq_true, if_false]
      rw [ih cs hcs]

theorem subNEF_id (f : Nat) : ∀ (bol : Bool) (l : List Char),
    l.all stableChar = true → subNEF f bol l = l := by
  induction f with
  | zero => intro bol l _; cases l <;> rfl
  | succ f2 ih =>
    intro bol l h
    cases l with
    | nil => rfl
    | cons c cs =>
      rw [List.all_cons, Bool.and_eq_true] at h
      obtain ⟨hc, hcs⟩ := h
      have hln : ((c :: cs).takeWhile (fun x => !(x == '\n'))).any asciiLetter
          = false :=
        stable_no_letter _ (takeWhile_all _ _ _
          (by rw [List.all_cons, Bool.and_eq_true]; exact ⟨hc, hcs⟩))
      simp only [subNEF, groupAltNE_none_of_stable c cs hc, hln,
        Bool.and_false, Bool.false_eq_true, if_false]
      rw [ih _ cs hcs]

theorem collapseF_id (f : Nat) : ∀ l : List Char, l.all stableChar = true →
    noTwoNl l = true → collapseF f l = l := by
  induction f with
  | zero => intro l _ _; cases l <;> rfl
  | succ f2 ih =>
    intro l hall hn2
    cases l with
    | nil => rfl
    | cons c cs =>
      rw [List.all_cons, Bool.and_eq_true] at hall
      obtain ⟨hc, hcs⟩ := hall
      by_cases hcnl : c = '\n'
      · subst hcnl
        have hinner : markerRunInfo ('\n' :: cs).length ('\n' :: cs) =
            some (1, '\n' :: cs, cs) := by
          cases cs with
          | nil => rfl
          | cons d ds =>
            have hd1 : ¬d = '\n' := noTwoNl_head d ds hn2
            have hd2 : ¬d = '<' :=
              (stableChar_props d (by
                rw [List.all_cons, Bool.and_eq_true] at hcs
                exact hcs.1)).2.1
            simp [markerRunInfo, parseMarker, hd1, hd2]
        simp only [collapseF, hinner, if_pos (by omega : (1 : Nat) < 2)]
        rw [ih cs hcs (noTwoNl_tail _ _ hn2)]
      · have hc2 : ¬c = '<' := (stableChar_props c hc).2.1
        have hpm : parseMarker (c :: cs) = none := by
          simp [parseMarker, hcnl, hc2]
        rw [collapseF_step_nomarker f2 c cs hpm, ih cs hcs (noTwoNl_tail _ _ hn2)]

theorem toList_asString (s : String) : s.toList.asString = s := rfl

theorem string_formatter_id (lang s : String) (h : stableRun s = true) :
    string_formatter lang s = s := by
  rw [stableRun, Bool.and_eq_true] at h
  obtain ⟨hall, hn2⟩ := h
  have hcollapse : remove_extra_newlines s = s := by
    unfold remove_extra_newlines
    rw [collapseF_id _ _ hall hn2, toList_asString]
  unfold string_formatter
  by_cases hE : lang = "English"
  · rw [if_pos hE, subEngF_id _ _ hall, toList_asString]
    exact hcollapse
  · rw [if_neg hE]
    by_cases hNE : lang = "Non-English"
    · rw [if_pos hNE, subNEF_id _ _ _ hall, toList_asString]
      exact hcollapse
    · rw [if_neg hNE]
      exact hcollapse

/-- C6 (amended): `format_language` is NOT idempotent in general (see the
counterexample), but it acts as the identity — and is therefore idempotent
— on every document all of whose text runs are stable: ASCII text with no
`<`, `[`, `\`, `!`, no ASCII letters, and no two consecutive newlines, so
that no substitution alternative, no stripping and no break-marker
collapse can fire, for every language preference. -/
theorem format_language_id_on_stable (lang : String) (runs : List String)
    (h : runs.all stableRun = true) :
    format_language (LyricsInput.tree runs) lang = some (FLResult.doc runs) := by
  simp only [format_language, Option.some.injEq, FLResult.doc.injEq]
  have : ∀ r ∈ runs,
      (if (pyStrip r).toList.length != 0 then string_formatter lang r else r) = r := by
    intro r hr
    split
    · exact string_formatter_id lang r ((List.all_eq_true.mp h) r hr)
    · rfl
  calc runs.map (fun r =>
        if (pyStrip r).toList.length != 0 then string_formatter lang r else r) =
      runs.map id := List.map_congr_left this
    _ = runs := List.map_id runs

/-- C6 amended witness: the identity (hence idempotence) instantiated on a
concrete stable document with the English preference. -/
theorem format_language_id_on_stable_witness :
    format_language (LyricsInput.tree ["12 34\n56"]) "English" =
      some (FLResult.doc ["12 34\n56"]) :=
  format_language_id_on_stable "English" ["12 34\n56"] (by decide)

/-! ## Archive producer (`create_zip`, zip_album.py lines 8-54)

The per-song title is cleaned by `re.sub(r'.*[\s]*-\s*', '', title)` —
delete everything up to the last reachable hyphen (the greedy `.*` stays on
the current line, `[\s]*` may cross newlines) together with the whitespace
after it — then `re.sub(r'[\s][\(\[][^\x00-\x7F]+.*[\)\]]', '', title)` —
delete a whitespace-preceded bracketed segment starting with a non-ASCII
character up to the last closing bracket on its line — and finally
`format_filename`.  Both scanners below are validated against the Python
engine. -/

/-- Index of the first newline (the length when there is none). -/
def firstNlIdx (l : List Char) : Nat :=
  (l.takeWhile (fun c => !(c == '\n'))).length

/-- Start of the maximal whitespace run ending just before index `j`
(clamped at 0, the scan position). -/
def wsBack (l : List Char) : Nat → Nat
  | 0 => 0
  | j + 1 => if pyIsSpace (l.getD j 'x') then wsBack l j else j + 1

/-- The hyphen matched by the greedy `.*[\s]*-` at the scan position: the
largest index `j` holding `'-'` such that the characters between the
current line and `j` are all whitespace (so `.*` can end on the current
line and `[\s]*` bridge to `j`). -/
def bestHyphen (l : List Char) (eol : Nat) : Option Nat :=
  (List.range l.length).foldl
    (fun best j =>
      if l.getD j 'x' == '-' && decide (wsBack l j ≤ eol) then some j else best)
    none

/-- Scanner of `re.sub(r'.*[\s]*-\s*', '', s)`, with fuel. -/
def sub1F : Nat → List Char → List Char
  | _, [] => []
  | 0, l => l
  | f + 1, c :: cs =>
    match bestHyphen (c :: cs) (firstNlIdx (c :: cs)) with
    | some j =>
      let rest := (c :: cs).drop (j + 1)
      sub1F f (rest.drop (rest.takeWhile pyIsSpace).length)
    | none => c :: sub1F f cs

/-- Index of the last `)` or `]` in a line segment. -/
def lastCloseIdx (seg : List Char) : Option Nat :=
  (List.range seg.length).foldl
    (fun best t =>
      if seg.getD t 'x' == ')' || seg.getD t 'x' == ']' then some t else best)
    none

/-- Scanner of `re.sub(r'[\s][\(\[][^\x00-\x7F]+.*[\)\]]', '', s)`, with
fuel. -/
def sub2F : Nat → List Char → List Char
  | _, [] => []
  | 0, l => l
  | f + 1, c :: cs =>
    match cs with
    | b :: d :: rest =>
      if pyIsSpace c && (b == '(' || b == '[') && nonAsciiChar d then
        match lastCloseIdx (rest.takeWhile (fun x => !(x == '\n'))) with
        | some q => sub2F f (rest.drop (q + 1))
        | none => c :: sub2F f cs
      else c :: sub2F f cs
    | _ => c :: sub2F f cs

/-- Embedding of `format_filename(string)` (utils.py 354-363): remove the
characters `\/:*?"<>|`. -/
def format_filename (s : String) : String :=
  (s.toList.filter (fun c =>
    !(c == '\\' || c == '/' || c == ':' || c == '*' || c == '?' || c == '"' ||
      c == '<' || c == '>' || c == '|'))).asString

/-- Embedding of `format_title(artist, title)` (utils.py 337-351): the bare
title when `"Genius"` occurs in the artist, else `"artist - title"`. -/
def format_title (artist title : String) : String :=
  if infixOfB "Genius".toList artist.toList then title
  else artist ++ " - " ++ title

/-- The song-title cleaning of `create_zip` (zip_album.py 41-44). -/
def zipSongTitle (title : String) : String :=
  let t1 := sub1F title.toList.length title.toList
  let t2 := sub2F t1.length t1
  format_filename t2.asString

/-- The per-song entry name of `create_zip` (zip_album.py 46-50): `i` is
the 0-based `enumerate` index. -/
def song_file_name (i : Nat) (title : String) : String :=
  (if i < 9 then "0" ++ toString (i + 1) else toString (i + 1)) ++ " - " ++
    zipSongTitle title ++ ".txt"

/-- Python `str.replace('\n', '\r\n')` (zip_album.py 38). -/
def crlfReplace (s : String) : String :=
  (s.toList.foldr
    (fun c acc => if c == '\n' then '\r' :: '\n' :: acc else c :: acc)
    []).asString

/-- A song of the album data consumed by `create_zip`: `title`, `lyrics`
(the `annotations` mapping is consumed only by the abstracted formatting
pipeline). -/
structure ZSong where
  title : String
  lyrics : String

/-- The album data consumed by `create_zip`. -/
structure AlbumData where
  album_title : String
  artist : String
  songs : List ZSong

/-- The user data consumed by `create_zip`. -/
structure UserData where
  lyrics_lang : String
  include_annotations : Bool

/-- Python `enumerate`, starting at `k`. -/
def enumerate {α : Type} : Nat → List α → List (Nat × α)
  | _, [] => []
  | k, x :: xs => (k, x) :: enumerate (k + 1) xs

theorem enumerate_get? {α : Type} (l : List α) :
    ∀ (k i : Nat), (enumerate k l).get? i = (l.get? i).map (fun a => (k + i, a)) := by
  induction l with
  | nil => intro k i; simp [enumerate]
  | cons x xs ih =>
    intro k i
    cases i with
    | zero => simp [enumerate]
    | succ i2 =>
      simp only [enumerate, List.get?_cons_succ, ih (k + 1) i2]
      cases xs.get? i2 <;> simp
      omega

/-- Embedding of `create_zip(data, user_data)` (zip_album.py 8-54).  The
per-song lyrics formatting (`string_funcs.format_annotations` followed by
`string_funcs.format_language` — the external `string_funcs` module is the
repository's formatting code under its historical name) is abstracted as
the `pipeline` parameter applied to the song's lyrics and the user data,
since the claim concerns the naming of the buffer and its entries.  The
result models the in-memory buffer: its `name` (`bio.name`) and the
ordered `(file_name, contents)` entries written by `zip_file.writestr`,
with the contents' line endings normalized to CRLF. -/
def create_zip (pipeline : String → String → Bool → String)
    (data : AlbumData) (user_data : UserData) : String × List (String × String) :=
  let full_title := format_filename (format_title data.artist data.album_title)
  (full_title ++ ".zip",
    (enumerate 0 data.songs).map (fun p =>
      (song_file_name p.1 p.2.title,
        crlfReplace (pipeline p.2.lyrics user_data.lyrics_lang
          user_data.include_annotations))))

/-- C9: for every album and every formatting pipeline, the archive entry
for the i-th song (0-based `i`, 1-indexed `i+1`) is named
`NN - <sanitized title>.txt` with `NN` the two-digit zero-padded value of
`i+1` when `i+1 ≤ 9` (a leading `"0"` before the single digit) and the
unpadded value otherwise, and the in-memory buffer is named
`<sanitized album/artist title>.zip`. -/
theorem create_zip_names (pipeline : String → String → Bool → String)
    (data : AlbumData) (user_data : UserData) (i : Nat) :
    ((create_zip pipeline data user_data).2.map Prod.fst).get? i =
        (data.songs.get? i).map (fun song =>
          (if i + 1 ≤ 9 then "0" ++ toString (i + 1) else toString (i + 1)) ++
            " - " ++ zipSongTitle song.title ++ ".txt") ∧
      (create_zip pipeline data user_data).1 =
        format_filename (format_title data.artist data.album_title) ++ ".zip" := by
  constructor
  · simp only [create_zip, List.map_map, List.get?_map, enumerate_get?,
      Nat.zero_add]
    cases hs : data.songs.get? i with
    | none => rfl
    | some song =>
      simp only [Option.map_some', Function.comp, song_file_name]
      by_cases hi : i < 9
      · rw [if_pos hi, if_pos (by omega : i + 1 ≤ 9)]
      · rw [if_neg hi, if_neg (by omega : ¬i + 1 ≤ 9)]
  · rfl
